import Mathlib

/-!
Shallow embedding of the rule-execution core of `pydantic-gitlab-cli`:
the violation/result data model (`linter/base.py`), the configuration
resolver (`linter/config.py`), the lint engine (`linter/engine.py`),
the job-dependency rule GL003 (`linter/rules/dependencies.py`) and the
parallel-matrix limit rule GL033 (`linter/rules/optimization.py`).
Python dicts are embedded as insertion-ordered association lists,
Python sets of strings as duplicate-free lists in insertion order, and
a rule `check` that may raise is embedded as a function returning the
violations appended before the (optional) uncaught exception message.
-/

set_option maxRecDepth 8000

namespace GitlabLint

/-- Single-quote character, used to mirror quoted job names inside the
violation messages of the Python source. -/
def sq : String := String.singleton (Char.ofNat 39)

/-- Lint violation severity levels (`LintLevel` in `linter/base.py`). -/
inductive LintLevel
  | error
  | warning
  | info
deriving DecidableEq

/-- A single linting violation (`LintViolation` in `linter/base.py`).
The `file_path` field is omitted: it is copied verbatim from the owning
result at creation time and never inspected by the rules under study. -/
structure LintViolation where
  rule_id : String
  level : LintLevel
  message : String
  line : Option Nat := none
  column : Option Nat := none
  job_name : Option String := none
  suggestion : Option String := none
deriving DecidableEq

/-- Result of linting a single file (`LintResult` in `linter/base.py`). -/
structure LintResult where
  file_path : String
  violations : List LintViolation := []
  parse_error : Option String := none
deriving DecidableEq

/-- One entry of a `rules:` list attached to a job; `getattr(rule, "when", None)`
is embedded as the optional field `when`. -/
structure JobRule where
  when : Option String := none
deriving DecidableEq

/-- A `needs:` entry: a plain string, a structured need object exposing a
`job` attribute, or any other shape (no `job` attribute). -/
inductive NeedSpec
  | nstr (s : String)
  | njob (j : String)
  | nother
deriving DecidableEq

/-- A YAML scalar value occurring inside a matrix dimension
(str / int / float / bool in the Python source; floats are carried by
their literal text so the embedding stays exact). -/
inductive YamlScalar
  | ystr (s : String)
  | yint (n : Int)
  | ybool (b : Bool)
  | yfloat (repr : String)
deriving DecidableEq

/-- The value of one variable inside a matrix dimension-map: a list of
scalars, a single scalar, or a value of any other type (which the
combination product of `_calculate_matrix_combinations` skips). -/
inductive MatrixValue
  | vlist (values : List YamlScalar)
  | vscalar (value : YamlScalar)
  | vother
deriving DecidableEq

/-- One item of a `parallel:matrix` list: a dimension-map (Python dict,
insertion-ordered) or a non-dict item. -/
inductive MatrixItem
  | mdict (entries : List (String × MatrixValue))
  | mother
deriving DecidableEq

/-- The value found under the `matrix` key: a list of items, or a
non-list value whose Python truthiness is recorded. -/
inductive MatrixSpec
  | mlist (items : List MatrixItem)
  | mother (truthy : Bool)
deriving DecidableEq

/-- A `parallel:` setting as probed by `_calculate_matrix_jobs`:
a bare integer, a raw dict with a `matrix` key, a raw dict without one
(its truthiness recorded), a pydantic model exposing a `matrix`
attribute, or any other value (its truthiness recorded). -/
inductive ParallelConfig
  | pint (n : Int)
  | pdictMatrix (matrix : MatrixSpec)
  | pdictOther (nonempty : Bool)
  | pmodel (matrix : Option MatrixSpec)
  | pother (truthy : Bool)
deriving DecidableEq

/-- The fields of a parsed job that the rules under study read.
Absent YAML keys surface as `none`; `job.dependencies`, `job.needs` and
`job.rules` iterate as the empty list when absent, which Python models
by falsiness of `None` and of the empty list alike. -/
structure Job where
  stage : Option String := none
  dependencies : Option (List String) := none
  needs : Option (List NeedSpec) := none
  when : Option String := none
  rules : Option (List JobRule) := none
  parallel : Option ParallelConfig := none
deriving DecidableEq

/-- The slice of the parsed pipeline object consumed by the rules:
`jobs` is the insertion-ordered job dict, `stages` the optional declared
stage list, and `all_stages` the answer of the external collaborator
method `ci_config.get_all_stages()` (pydantic-gitlab, outside this
repository). -/
structure GitLabCI where
  jobs : List (String × Job)
  stages : Option (List String) := none
  all_stages : List String := []
deriving DecidableEq

/-- Python `set.add` on a set embedded as a duplicate-free list in
insertion order. -/
def setAdd (s : List String) (x : String) : List String :=
  if x ∈ s then s else s ++ [x]

/-- Python `set.update`: add every element of `xs`. -/
def setUpdate (s : List String) (xs : List String) : List String :=
  xs.foldl setAdd s

/-- An adjacency map `dict[str, set[str]]` over job names. -/
abbrev DepGraph := List (String × List String)

/-- Python `deps.get(job, set())`: the adjacency set of `job`, empty when
`job` is not a key. -/
def lookupDeps (deps : DepGraph) (job : String) : List String :=
  (deps.lookup job).getD []

/-- `JobDependenciesRule._extract_need_job_name`: job name of a need
specification, if any. -/
def extract_need_job_name : NeedSpec → Option String
  | .nstr s => some s
  | .njob j => some j
  | .nother => none

/-- Violation emitted by `_process_traditional_dependencies` for a
dependency on an unknown job. -/
def dep_violation (level : LintLevel) (job_name dep : String) : LintViolation :=
  { rule_id := "GL003", level := level,
    message := "Job depends on non-existent job " ++ sq ++ dep ++ sq,
    job_name := some job_name,
    suggestion := some ("Remove dependency " ++ sq ++ dep ++ sq ++ " or create the missing job") }

/-- Violation emitted by `_process_needs_dependencies` for a need of an
unknown job. -/
def need_violation (level : LintLevel) (job_name need_job : String) : LintViolation :=
  { rule_id := "GL003", level := level,
    message := "Job needs non-existent job " ++ sq ++ need_job ++ sq,
    job_name := some job_name,
    suggestion := some ("Remove need " ++ sq ++ need_job ++ sq ++ " or create the missing job") }

/-- `JobDependenciesRule._process_traditional_dependencies`: walk the
declared `dependencies` of one job, collecting the edge set for known
targets and a violation for each unknown target. -/
def process_traditional_dependencies (level : LintLevel) (job_name : String) (job : Job)
    (job_names : List String) : List String × List LintViolation :=
  (job.dependencies.getD []).foldl
    (fun acc dep =>
      if dep ∉ job_names then
        (acc.1, acc.2 ++ [dep_violation level job_name dep])
      else
        (setAdd acc.1 dep, acc.2))
    ([], [])

/-- `JobDependenciesRule._process_needs_dependencies`: walk the declared
`needs` of one job; a need whose extracted job name is `None` or the
empty string (both falsy in Python) is skipped entirely. -/
def process_needs_dependencies (level : LintLevel) (job_name : String) (job : Job)
    (job_names : List String) : List String × List LintViolation :=
  (job.needs.getD []).foldl
    (fun acc need =>
      match extract_need_job_name need with
      | none => acc
      | some need_job =>
        if need_job ≠ "" ∧ need_job ∉ job_names then
          (acc.1, acc.2 ++ [need_violation level job_name need_job])
        else if need_job ≠ "" then
          (setAdd acc.1 need_job, acc.2)
        else acc)
    ([], [])

/-- `JobDependenciesRule._build_dependency_graph`: per job (each job gets
a fresh entry, built independently), the traditional and needs-based
adjacency sets plus all reference violations in emission order. -/
def build_dependency_graph (level : LintLevel) (jobs : List (String × Job))
    (job_names : List String) : DepGraph × DepGraph × List LintViolation :=
  (jobs.map (fun jn => (jn.1, (process_traditional_dependencies level jn.1 jn.2 job_names).1)),
   jobs.map (fun jn => (jn.1, (process_needs_dependencies level jn.1 jn.2 job_names).1)),
   jobs.flatMap (fun jn =>
     (process_traditional_dependencies level jn.1 jn.2 job_names).2
       ++ (process_needs_dependencies level jn.1 jn.2 job_names).2))

/-- The recursive `has_cycle` closure inside `_check_cycles`, made
total with an explicit recursion-depth budget: the Python recursion
terminates because every recursive level adds a distinct node to the
active path, and `check_cycles` below passes a budget proved sufficient
for exactly that reason (`has_cycle_fuel_complete`). Exhausted fuel
returns `false`, so a `true` answer always reflects the source. -/
def has_cycle_fuel (deps : DepGraph) : Nat → String → List String → Bool
  | 0, _, _ => false
  | fuel + 1, job, path =>
    if job ∈ path then true
    else (lookupDeps deps job).any (fun dep => has_cycle_fuel deps fuel dep (job :: path))

/-- Entry point of the DFS: fuel `deps.length + 1` strictly exceeds the
number of keys of the graph, hence suffices from the empty path. -/
def has_cycle (deps : DepGraph) (job : String) (path : List String) : Bool :=
  has_cycle_fuel deps (deps.length + 1) job path

/-- Violation emitted by `_check_cycles` for a detected cycle. -/
def cycle_violation (level : LintLevel) (dep_type job_name : String) : LintViolation :=
  { rule_id := "GL003", level := level,
    message := "Circular dependency detected in " ++ dep_type,
    job_name := some job_name,
    suggestion := some ("Review and fix circular " ++ dep_type ++ " chain") }

/-- `JobDependenciesRule._check_cycles`: run the DFS from every key of
the graph, emitting one violation per starting job at which a cycle is
detected. -/
def check_cycles (level : LintLevel) (deps : DepGraph) (dep_type : String) :
    List LintViolation :=
  (deps.map Prod.fst).filterMap (fun job_name =>
    if has_cycle deps job_name [] then some (cycle_violation level dep_type job_name)
    else none)

/-- Python `job.stage if job.stage else "test"`: a missing or
empty-string (falsy) stage defaults to `test`. -/
def job_stage_or_default (job : Job) : String :=
  match job.stage with
  | some s => if s = "" then "test" else s
  | none => "test"

/-- The set of jobs in the first stage (or the reserved `.pre` stage),
as computed by `_check_unreachable_jobs`; a falsy `stage` defaults to
`test`, a falsy stage list to first stage `build`. -/
def first_stage_jobs (ci : GitLabCI) : List String :=
  let first_stage := ci.all_stages.headD "build"
  ci.jobs.foldl
    (fun s jn =>
      let job_stage := job_stage_or_default jn.2
      if job_stage = first_stage ∨ job_stage = ".pre" then setAdd s jn.1 else s)
    []

/-- The set of jobs referenced as a dependency or need target by any job,
as computed by `_check_unreachable_jobs`. -/
def referenced_jobs (dependencies needs_dependencies : DepGraph) : List String :=
  needs_dependencies.foldl (fun s kv => setUpdate s kv.2)
    (dependencies.foldl (fun s kv => setUpdate s kv.2) [])

/-- Violation emitted by `_check_unreachable_jobs`; the source swaps the
rule level to WARNING for this violation and restores it afterwards. -/
def unreachable_violation (job_name : String) : LintViolation :=
  { rule_id := "GL003", level := .warning,
    message := "Job may be unreachable (not in first stage and not referenced by other jobs)",
    job_name := some job_name,
    suggestion := some "Ensure job is properly connected via dependencies, needs, or stage ordering" }

/-- `JobDependenciesRule._check_unreachable_jobs`: flag any job outside
the first stage that no job references and that is not manually or
delayed triggered, either via `when` or via a `rules` entry with
`when: manual`. -/
def check_unreachable_jobs (ci : GitLabCI) (dependencies needs_dependencies : DepGraph) :
    List LintViolation :=
  let fsj := first_stage_jobs ci
  let refd := referenced_jobs dependencies needs_dependencies
  ci.jobs.filterMap (fun jn =>
    if jn.1 ∉ fsj ∧ jn.1 ∉ refd
        ∧ jn.2.when ≠ some "manual" ∧ jn.2.when ≠ some "delayed"
        ∧ ¬((jn.2.rules.getD []) ≠ [] ∧ (jn.2.rules.getD []).any (fun r => r.when = some "manual"))
    then some (unreachable_violation jn.1)
    else none)

/-- Append `v` to the list stored under `k` (creating the entry if
missing): the `stage_jobs` accumulation of `_check_stage_optimization`. -/
def multiAdd (m : List (String × List String)) (k v : String) : List (String × List String) :=
  if (m.lookup k).isSome then
    m.map (fun kv => if kv.1 = k then (kv.1, kv.2 ++ [v]) else kv)
  else m ++ [(k, [v])]

/-- Violation emitted by `_check_stage_optimization`; the source swaps
the rule level to INFO for this violation and restores it afterwards. -/
def stage_optimization_violation (job_name : String) : LintViolation :=
  { rule_id := "GL003", level := .info,
    message := "Job relies on stage ordering but could use " ++ sq ++ "needs" ++ sq ++ " for faster execution",
    job_name := some job_name,
    suggestion := some ("Consider using " ++ sq ++ "needs" ++ sq
      ++ " to specify exact job dependencies instead of stage ordering") }

/-- `JobDependenciesRule._check_stage_optimization`: for pipelines with
more than two declared stages, flag jobs of later stages that declare no
needs when more than three jobs live in earlier stages. -/
def check_stage_optimization (ci : GitLabCI) (needs_dependencies : DepGraph) :
    List LintViolation :=
  match ci.stages with
  | none => []
  | some stages =>
    if stages.length ≤ 2 then []
    else
      let stage_jobs := ci.jobs.foldl (fun m jn => multiAdd m (job_stage_or_default jn.2) jn.1) []
      (stages.enum.drop 1).flatMap (fun istage =>
        ((stage_jobs.lookup istage.2).getD []).filterMap (fun job_name =>
          if lookupDeps needs_dependencies job_name = [] then
            let prev_stage_jobs := (List.range istage.1).flatMap
              (fun j => (stage_jobs.lookup (stages.getD j "")).getD [])
            if prev_stage_jobs.length > 3 then some (stage_optimization_violation job_name)
            else none
          else none))

/-- `JobDependenciesRule.check`: the full GL003 check, at the current
rule level: reference violations from graph construction, cycle
detection run independently on both graphs, unreachable jobs, then the
stage-ordering hint. -/
def job_dependencies_check (level : LintLevel) (ci : GitLabCI) : List LintViolation :=
  if ci.jobs.isEmpty then []
  else
    let job_names := ci.jobs.map Prod.fst
    let built := build_dependency_graph level ci.jobs job_names
    built.2.2
      ++ check_cycles level built.1 "dependencies"
      ++ check_cycles level built.2.1 "needs"
      ++ check_unreachable_jobs ci built.1 built.2.1
      ++ check_stage_optimization ci built.2.1

/-! ## Matrix combinatorics calculator (`ParallelMatrixLimitRule`, GL033) -/

/-- Python truthiness of the value found under the `matrix` key. -/
def matrix_truthy : MatrixSpec → Bool
  | .mlist items => !items.isEmpty
  | .mother t => t

/-- Jobs contributed by one matrix item: for a dimension-map, the
product over its entries (list values contribute their length, scalars
a factor of one, other values are skipped); a non-dict item counts as
one job. -/
def calculate_item_jobs : MatrixItem → Int
  | .mdict entries =>
    entries.foldl
      (fun combinations kv =>
        match kv.2 with
        | .vlist values => combinations * (values.length : Int)
        | .vscalar _ => combinations * 1
        | .vother => combinations)
      1
  | .mother => 1

/-- `ParallelMatrixLimitRule._calculate_matrix_combinations`. -/
def calculate_matrix_combinations (matrix : MatrixSpec) : Int :=
  if !matrix_truthy matrix then 0
  else
    match matrix with
    | .mlist items => items.foldl (fun total_jobs item => total_jobs + calculate_item_jobs item) 0
    | .mother _ => 1

/-- `ParallelMatrixLimitRule._calculate_matrix_jobs`. -/
def calculate_matrix_jobs : ParallelConfig → Int
  | .pint n => n
  | .pdictMatrix matrix => calculate_matrix_combinations matrix
  | .pdictOther _ => 1
  | .pmodel (some matrix) =>
    if matrix_truthy matrix then calculate_matrix_combinations matrix else 1
  | .pmodel none => 1
  | .pother _ => 1

/-- Python truthiness of a `parallel` value, as tested by
`if not job.parallel` in `ParallelMatrixLimitRule.check`: zero is falsy,
a dict is falsy iff empty (a dict holding a `matrix` key is never
empty), pydantic model objects are always truthy. -/
def parallel_truthy : ParallelConfig → Bool
  | .pint n => n != 0
  | .pdictMatrix _ => true
  | .pdictOther nonempty => nonempty
  | .pmodel _ => true
  | .pother truthy => truthy

/-- Violation emitted by `ParallelMatrixLimitRule.check` when the
computed job count exceeds 200. -/
def matrix_limit_violation (level : LintLevel) (job_name : String) (total_jobs : Int) :
    LintViolation :=
  { rule_id := "GL033", level := level,
    message := "Parallel matrix will generate " ++ toString total_jobs
      ++ " jobs, exceeding GitLab" ++ sq ++ "s limit of 200",
    job_name := some job_name,
    suggestion := some "Reduce the number of matrix combinations or split into multiple jobs" }

/-- `ParallelMatrixLimitRule.check`: for every job with a truthy
`parallel` setting, compute the generated job count and flag it when it
exceeds 200. -/
def parallel_matrix_limit_check (level : LintLevel) (ci : GitLabCI) : List LintViolation :=
  ci.jobs.filterMap (fun jn =>
    match jn.2.parallel with
    | none => none
    | some p =>
      if parallel_truthy p then
        let total_jobs := calculate_matrix_jobs p
        if total_jobs > 200 then some (matrix_limit_violation level jn.1 total_jobs)
        else none
      else none)

/-! ## Configuration resolver (`linter/config.py`) -/

/-- Configuration of a single rule (`RuleConfig`); the `options` map is
omitted (never read by the code under study). -/
structure RuleConfig where
  enabled : Bool := true
  level : LintLevel := .error
deriving DecidableEq

/-- The linter configuration (`LinterConfig`), with the rule and
category dicts embedded as insertion-ordered association lists; the
include/exclude glob lists are omitted (file discovery is out of
scope). -/
structure LinterConfig where
  strict_mode : Bool := false
  max_violations : Option Int := none
  fail_on_warnings : Bool := false
  rules : List (String × RuleConfig) := []
  categories : List (String × Bool) := []
deriving DecidableEq

/-- The built-in default rule table of `ConfigLoader._apply_default_rules`. -/
def default_rules : List (String × RuleConfig) :=
  [("GL001", { enabled := true, level := .error }),
   ("GL002", { enabled := true, level := .error }),
   ("GL004", { enabled := true, level := .error }),
   ("GL005", { enabled := true, level := .error }),
   ("GL012", { enabled := true, level := .error }),
   ("GL013", { enabled := true, level := .error }),
   ("GL020", { enabled := true, level := .error }),
   ("GL022", { enabled := true, level := .error }),
   ("GL003", { enabled := true, level := .warning }),
   ("GL006", { enabled := true, level := .warning }),
   ("GL007", { enabled := true, level := .warning }),
   ("GL009", { enabled := true, level := .warning }),
   ("GL010", { enabled := true, level := .warning }),
   ("GL016", { enabled := true, level := .warning }),
   ("GL018", { enabled := true, level := .warning }),
   ("GL019", { enabled := true, level := .warning }),
   ("GL008", { enabled := true, level := .info }),
   ("GL011", { enabled := true, level := .info }),
   ("GL014", { enabled := true, level := .info }),
   ("GL015", { enabled := true, level := .info }),
   ("GL017", { enabled := true, level := .info }),
   ("GL033", { enabled := true, level := .error })]

/-- `ConfigLoader._apply_default_rules`: install the default entry for
every rule id not explicitly configured (dict insertion appends). -/
def apply_default_rules (config : LinterConfig) : LinterConfig :=
  { config with
    rules := config.rules ++ default_rules.filter (fun kv => (config.rules.lookup kv.1).isNone) }

/-- The configuration `ConfigLoader.load_config()` resolves when no
configuration file is found: `LinterConfig()` with the default rule
table applied. -/
def default_loaded_config : LinterConfig :=
  apply_default_rules {}

/-- `ConfigLoader.get_rule_config`: the configured entry for a rule id,
or a fresh default `RuleConfig()`; `config = none` embeds a loader with
no loaded configuration. -/
def get_rule_config (config : Option LinterConfig) (rule_id : String) : RuleConfig :=
  match config with
  | none => {}
  | some cfg => (cfg.rules.lookup rule_id).getD {}

/-- `ConfigLoader.is_rule_enabled`: the category check fires only for a
truthy (non-empty, non-`None`) category name that is present in the
categories table with value `False`; otherwise the rule-specific
`enabled` flag decides. -/
def is_rule_enabled (config : Option LinterConfig) (rule_id : String)
    (category : Option String) : Bool :=
  match config with
  | none => true
  | some cfg =>
    match category with
    | some c =>
      if c ≠ "" ∧ cfg.categories.lookup c = some false then false
      else (get_rule_config config rule_id).enabled
    | none => (get_rule_config config rule_id).enabled

/-! ## Lint engine (`linter/engine.py`) -/

/-- A registered rule as the engine sees it. `check` receives the
current rule level (the source reads `self.level` while emitting) and
returns the violations it appended to the result before the optional
uncaught exception, embedding a Python `check` that may raise. -/
structure MRule where
  rule_id : String
  category : String
  enabled : Bool := true
  level : LintLevel := .error
  applicable : GitLabCI → Bool := fun _ => true
  check : LintLevel → GitLabCI → List LintViolation × Option String

/-- The configuration application performed by `LintEngine.register_rule`
on the rule instance being registered. -/
def apply_rule_config (config : Option LinterConfig) (r : MRule) : MRule :=
  { r with
    enabled := is_rule_enabled config r.rule_id (some r.category),
    level := (get_rule_config config r.rule_id).level }

/-- The synthetic violation `lint_file` appends when a rule raises. -/
def rule_failure_violation (rule_id : String) (e : String) : LintViolation :=
  { rule_id := rule_id, level := .error, message := "Rule execution failed: " ++ e }

/-- The violations one enabled rule contributes to a file inside
`lint_file`: nothing when inapplicable; on an uncaught exception, the
violations appended before the raise followed by exactly one synthetic
ERROR violation. -/
def rule_contribution (ci : GitLabCI) (r : MRule) : List LintViolation :=
  if r.applicable ci then
    match r.check r.level ci with
    | (vs, none) => vs
    | (vs, some e) => vs ++ [rule_failure_violation r.rule_id e]
  else []

/-- The rule loop of `LintEngine.lint_file`: filter the enabled rules,
then run each in order against the same result. -/
def run_rules (ci : GitLabCI) (rules : List MRule) : List LintViolation :=
  (rules.filter (fun r => r.enabled)).flatMap (rule_contribution ci)

/-- `LintEngine.lint_file`, with the external parse step
(`_parse_gitlab_ci_file`) supplied as an already-computed
`Except`: a parse failure short-circuits before any rule runs. -/
def lint_file (file_path : String) (parsed : Except String GitLabCI) (rules : List MRule) :
    LintResult :=
  match parsed with
  | .error e => { file_path := file_path, violations := [], parse_error := some e }
  | .ok ci => { file_path := file_path, violations := run_rules ci rules }

/-- Python list slicing `l[:n]` for the possibly-negative bound used in
`_apply_config_constraints`. -/
def pySliceTake (l : List LintViolation) (n : Int) : List LintViolation :=
  if 0 ≤ n then l.take n.toNat else l.take (l.length - (-n).toNat)

/-- `LintEngine._apply_config_constraints`: truncate each result to
`max_violations` entries; a falsy setting (`None` or `0`) disables the
constraint. -/
def apply_config_constraints (config : LinterConfig) (results : List LintResult) :
    List LintResult :=
  results.map (fun result =>
    match config.max_violations with
    | some n =>
      if n ≠ 0 ∧ (result.violations.length : Int) > n then
        { result with violations := pySliceTake result.violations n }
      else result
    | none => result)

/-- `LintEngine.lint_files`: lint each file in order, then apply the
configuration constraints. -/
def lint_files (files : List (String × Except String GitLabCI)) (rules : List MRule)
    (config : LinterConfig) : List LintResult :=
  apply_config_constraints config (files.map (fun f => lint_file f.1 f.2 rules))

/-- The GL003 rule as registered with the engine: its `check` never
raises and appends exactly `job_dependencies_check`. -/
def job_dependencies_rule : MRule :=
  { rule_id := "GL003", category := "dependencies",
    check := fun level ci => (job_dependencies_check level ci, none) }

/-- The GL033 rule as registered with the engine. -/
def parallel_matrix_limit_rule : MRule :=
  { rule_id := "GL033", category := "optimization",
    check := fun level ci => (parallel_matrix_limit_check level ci, none) }

/-! ## Graph-theoretic reading of the dependency graphs -/

/-- The edge relation of an adjacency map: `depEdge deps a b` holds when
`b` lies in the adjacency set of `a` (job `a` depends on job `b`). -/
def depEdge (deps : DepGraph) (a b : String) : Prop :=
  b ∈ lookupDeps deps a

instance (deps : DepGraph) (a b : String) : Decidable (depEdge deps a b) :=
  inferInstanceAs (Decidable (b ∈ lookupDeps deps a))

/-- A directed cycle in the graph: a nonempty edge path from some node
back to itself. -/
def graph_has_cycle (deps : DepGraph) : Prop :=
  ∃ c, Relation.TransGen (depEdge deps) c c

/-- A node can reach a cycle: some (possibly empty) path from it ends in
a node lying on a nonempty cycle. -/
def reaches_cycle (deps : DepGraph) (j : String) : Prop :=
  ∃ c, Relation.ReflTransGen (depEdge deps) j c ∧ Relation.TransGen (depEdge deps) c c

/-- The key set of an adjacency map. -/
def graphKeys (deps : DepGraph) : Finset String :=
  (deps.map Prod.fst).toFinset

lemma mem_keys_of_lookupDeps_ne_nil {deps : DepGraph} {job : String}
    (h : lookupDeps deps job ≠ []) : job ∈ deps.map Prod.fst := by
  induction deps with
  | nil => simp [lookupDeps, List.lookup] at h
  | cons kv rest ih =>
    obtain ⟨k, vs⟩ := kv
    by_cases hk : job = k
    · simp [hk]
    · have hbeq : (job == k) = false := beq_eq_false_iff_ne.mpr hk
      simp only [lookupDeps, List.lookup, hbeq] at h
      simp only [List.map_cons, List.mem_cons]
      exact Or.inr (ih h)

lemma mem_keys_of_depEdge {deps : DepGraph} {a b : String} (h : depEdge deps a b) :
    a ∈ deps.map Prod.fst := by
  refine mem_keys_of_lookupDeps_ne_nil (fun hnil => ?_)
  rw [depEdge, hnil] at h
  exact List.not_mem_nil b h

/-- Soundness of the DFS: a `true` answer (at any fuel) exhibits a real
cycle, provided every node of the active path reaches the current node
by a nonempty edge path — the invariant the recursion maintains. -/
lemma has_cycle_fuel_sound {deps : DepGraph} :
    ∀ (fuel : Nat) (job : String) (path : List String),
      (∀ p ∈ path, Relation.TransGen (depEdge deps) p job) →
      has_cycle_fuel deps fuel job path = true →
      graph_has_cycle deps := by
  intro fuel
  induction fuel with
  | zero => intro job path _ h; simp [has_cycle_fuel] at h
  | succ fuel ih =>
    intro job path hpath h
    by_cases hmem : job ∈ path
    · exact ⟨job, hpath job hmem⟩
    · simp only [has_cycle_fuel, if_neg hmem, List.any_eq_true] at h
      obtain ⟨dep, hdep, hrec⟩ := h
      refine ih dep (job :: path) (fun p hp => ?_) hrec
      rcases List.mem_cons.mp hp with rfl | hp
      · exact Relation.TransGen.single hdep
      · exact (hpath p hp).tail hdep

/-- Completeness of the DFS: with enough fuel for the nodes not yet on
the path, a start node that reaches a cycle is detected. -/
lemma has_cycle_fuel_complete {deps : DepGraph} :
    ∀ (fuel : Nat) (job : String) (path : List String),
      (graphKeys deps \ path.toFinset).card < fuel →
      reaches_cycle deps job →
      has_cycle_fuel deps fuel job path = true := by
  intro fuel
  induction fuel with
  | zero => intro job path hcard _; exact absurd hcard (Nat.not_lt_zero _)
  | succ fuel ih =>
    intro job path hcard hreach
    by_cases hmem : job ∈ path
    · simp [has_cycle_fuel, hmem]
    · obtain ⟨c, hstar, hcyc⟩ := hreach
      have hsucc : ∃ dep, depEdge deps job dep ∧ reaches_cycle deps dep := by
        rcases Relation.ReflTransGen.cases_head hstar with rfl | ⟨d, hd, hdc⟩
        · obtain ⟨d, hd, hdstar⟩ := Relation.TransGen.head'_iff.mp hcyc
          exact ⟨d, hd, job, hdstar, hcyc⟩
        · exact ⟨d, hd, c, hdc, hcyc⟩
      obtain ⟨dep, hedge, hdepreach⟩ := hsucc
      have hkey : job ∈ graphKeys deps := List.mem_toFinset.mpr (mem_keys_of_depEdge hedge)
      simp only [has_cycle_fuel, if_neg hmem, List.any_eq_true]
      refine ⟨dep, hedge, ih dep (job :: path) ?_ hdepreach⟩
      have hlt : (graphKeys deps \ (job :: path).toFinset).card
          < (graphKeys deps \ path.toFinset).card := by
        have : graphKeys deps \ (job :: path).toFinset
            = (graphKeys deps \ path.toFinset).erase job := by
          rw [List.toFinset_cons, Finset.sdiff_insert]
        rw [this]
        exact Finset.card_erase_lt_of_mem (Finset.mem_sdiff.mpr ⟨hkey, by simpa using hmem⟩)
      omega

/-- From the empty path the fuel `deps.length + 1` passed by
`check_cycles` is always sufficient. -/
lemma has_cycle_true_of_reaches_cycle {deps : DepGraph} {job : String}
    (h : reaches_cycle deps job) : has_cycle deps job [] = true := by
  refine has_cycle_fuel_complete _ _ _ ?_ h
  have h1 : (graphKeys deps).card ≤ deps.length := by
    calc (graphKeys deps).card ≤ (deps.map Prod.fst).length :=
          List.toFinset_card_le (deps.map Prod.fst)
    _ = deps.length := List.length_map _ _
  have h2 : graphKeys deps \ ([] : List String).toFinset = graphKeys deps := by simp
  rw [h2]
  exact Nat.lt_succ_of_le h1

/-- Membership description of the violation list of `_check_cycles`. -/
lemma mem_check_cycles {level : LintLevel} {deps : DepGraph} {dep_type : String}
    {v : LintViolation} :
    v ∈ check_cycles level deps dep_type ↔
      ∃ job_name ∈ deps.map Prod.fst, has_cycle deps job_name [] = true ∧
        v = cycle_violation level dep_type job_name := by
  simp only [check_cycles, List.mem_filterMap, Option.ite_none_right_eq_some,
    Option.some.injEq]
  constructor
  · rintro ⟨j, hj, hc, rfl⟩
    exact ⟨j, hj, hc, rfl⟩
  · rintro ⟨j, hj, hc, rfl⟩
    exact ⟨j, hj, hc, rfl⟩

/-- An acyclic graph produces no cycle violations: any reported start
job would exhibit a cycle by DFS soundness. -/
lemma check_cycles_eq_nil_of_acyclic (level : LintLevel) (deps : DepGraph) (dep_type : String)
    (h : ¬ graph_has_cycle deps) : check_cycles level deps dep_type = [] := by
  rw [List.eq_nil_iff_forall_not_mem]
  intro v hv
  obtain ⟨j, _, hc, rfl⟩ := mem_check_cycles.mp hv
  exact h (has_cycle_fuel_sound _ j [] (by simp) hc)

/-- A graph with a cycle always yields at least one cycle violation, and
every cycle violation carries the graph type in its message. -/
lemma check_cycles_exists_of_cycle (level : LintLevel) (deps : DepGraph) (dep_type : String)
    (h : graph_has_cycle deps) :
    ∃ v ∈ check_cycles level deps dep_type,
      v.message = "Circular dependency detected in " ++ dep_type := by
  obtain ⟨c, hc⟩ := h
  have hkey : c ∈ deps.map Prod.fst := by
    obtain ⟨d, hd, _⟩ := Relation.TransGen.head'_iff.mp hc
    exact mem_keys_of_depEdge hd
  have hdet : has_cycle deps c [] = true :=
    has_cycle_true_of_reaches_cycle ⟨c, Relation.ReflTransGen.refl, hc⟩
  exact ⟨cycle_violation level dep_type c, mem_check_cycles.mpr ⟨c, hkey, hdet, rfl⟩, rfl⟩

/-- The message of a violation contains `s` as a substring. -/
def message_mentions (v : LintViolation) (s : String) : Prop :=
  s.data <:+: v.message.data

instance (v : LintViolation) (s : String) : Decidable (message_mentions v s) :=
  inferInstanceAs (Decidable (s.data <:+: v.message.data))

lemma message_mentions_of_append {pre : String} {t : String} {v : LintViolation}
    (h : v.message = pre ++ t) : message_mentions v t := by
  rw [message_mentions, h]
  exact (List.suffix_append pre.data t.data).isInfix

/-! ## Claim C1 -/

/-- C1: for every job map and the pair of dependency graphs built from
it, cycle detection — run independently on the `dependencies` and the
`needs` graph — emits zero circular-dependency violations on an acyclic
graph, and at least one violation whose message names the graph type on
a graph containing a cycle. -/
theorem claim_C1_cycle_detection (level : LintLevel) (jobs : List (String × Job)) :
    (¬ graph_has_cycle (build_dependency_graph level jobs (jobs.map Prod.fst)).1 →
        check_cycles level (build_dependency_graph level jobs (jobs.map Prod.fst)).1
          "dependencies" = []) ∧
    (graph_has_cycle (build_dependency_graph level jobs (jobs.map Prod.fst)).1 →
        ∃ v ∈ check_cycles level (build_dependency_graph level jobs (jobs.map Prod.fst)).1
            "dependencies", message_mentions v "dependencies") ∧
    (¬ graph_has_cycle (build_dependency_graph level jobs (jobs.map Prod.fst)).2.1 →
        check_cycles level (build_dependency_graph level jobs (jobs.map Prod.fst)).2.1
          "needs" = []) ∧
    (graph_has_cycle (build_dependency_graph level jobs (jobs.map Prod.fst)).2.1 →
        ∃ v ∈ check_cycles level (build_dependency_graph level jobs (jobs.map Prod.fst)).2.1
            "needs", message_mentions v "needs") := by
  refine ⟨fun h => check_cycles_eq_nil_of_acyclic _ _ _ h, fun h => ?_,
          fun h => check_cycles_eq_nil_of_acyclic _ _ _ h, fun h => ?_⟩
  · obtain ⟨v, hv, hmsg⟩ := check_cycles_exists_of_cycle level _ "dependencies" h
    exact ⟨v, hv, message_mentions_of_append hmsg⟩
  · obtain ⟨v, hv, hmsg⟩ := check_cycles_exists_of_cycle level _ "needs" h
    exact ⟨v, hv, message_mentions_of_append hmsg⟩

/-- Two jobs depending on each other: the A→B→A example of the claim. -/
def c1_jobs : List (String × Job) :=
  [("A", { dependencies := some ["B"] }), ("B", { dependencies := some ["A"] })]

/-- Witness for C1 at the concrete cyclic job map `c1_jobs`. -/
theorem claim_C1_cycle_detection_witness :
    ∃ v ∈ check_cycles .warning
        (build_dependency_graph .warning c1_jobs (c1_jobs.map Prod.fst)).1 "dependencies",
      message_mentions v "dependencies" := by
  have hcyc : graph_has_cycle
      (build_dependency_graph .warning c1_jobs (c1_jobs.map Prod.fst)).1 :=
    ⟨"A", Relation.TransGen.head (b := "B") (by decide) (Relation.TransGen.single (by decide))⟩
  exact (claim_C1_cycle_detection .warning c1_jobs).2.1 hcyc

/-! ## Claim C10 -/

/-- C10: cycle detection flags every job from which a cycle is merely
reachable, not only jobs lying on a cycle: the per-job DFS returns true
whenever any node is revisited on the active path. -/
theorem claim_C10_reaching_jobs_flagged (level : LintLevel) (deps : DepGraph)
    (dep_type : String) (J : String) (hJ : J ∈ deps.map Prod.fst)
    (hreach : reaches_cycle deps J) :
    ∃ v ∈ check_cycles level deps dep_type, v.job_name = some J :=
  ⟨cycle_violation level dep_type J,
    mem_check_cycles.mpr ⟨J, hJ, has_cycle_true_of_reaches_cycle hreach, rfl⟩, rfl⟩

/-- Graph with the cycle A→B→A and the off-cycle job C→A of the claim. -/
def c10_graph : DepGraph := [("A", ["B"]), ("B", ["A"]), ("C", ["A"])]

/-- Witness for C10: job C is flagged although it only reaches the
cycle A→B→A. -/
theorem claim_C10_reaching_jobs_flagged_witness :
    ∃ v ∈ check_cycles .warning c10_graph "dependencies", v.job_name = some "C" := by
  refine claim_C10_reaching_jobs_flagged .warning c10_graph "dependencies" "C" (by decide) ?_
  exact ⟨"A", Relation.ReflTransGen.single (by decide),
    Relation.TransGen.head (b := "B") (by decide) (Relation.TransGen.single (by decide))⟩

/-! ## Claim C2 -/

/-- The multiplicative factor the specification ascribes to one entry of
a dimension-map: the length for a list value, one otherwise. -/
def spec_entry_factor (kv : String × MatrixValue) : Int :=
  match kv.2 with
  | .vlist values => (values.length : Int)
  | _ => 1

/-- Modelled on the specification wording of C2: the total job count of
a matrix given as a list of dimension-maps is the sum over each
dimension-map of the product of its entry factors. -/
def spec_matrix_total (dims : List (List (String × MatrixValue))) : Int :=
  (dims.map (fun dim => (dim.map spec_entry_factor).prod)).sum

lemma calculate_item_jobs_mdict (dim : List (String × MatrixValue)) :
    calculate_item_jobs (.mdict dim) = (dim.map spec_entry_factor).prod := by
  have key : ∀ (l : List (String × MatrixValue)) (a : Int),
      List.foldl (fun combinations kv =>
        match kv.2 with
        | MatrixValue.vlist values => combinations * (values.length : Int)
        | MatrixValue.vscalar _ => combinations * 1
        | MatrixValue.vother => combinations) a l
      = a * (l.map spec_entry_factor).prod := by
    intro l
    induction l with
    | nil => intro a; simp
    | cons kv rest ih =>
      intro a
      rw [List.foldl_cons, ih, List.map_cons, List.prod_cons]
      rcases kv with ⟨k, v⟩
      cases v <;> simp [spec_entry_factor, mul_assoc]
  calc calculate_item_jobs (.mdict dim) = 1 * (dim.map spec_entry_factor).prod := key dim 1
  _ = (dim.map spec_entry_factor).prod := one_mul _

lemma calculate_matrix_combinations_mlist (items : List MatrixItem) :
    calculate_matrix_combinations (.mlist items)
      = if items.isEmpty then 0 else (items.map calculate_item_jobs).sum := by
  have key : ∀ (l : List MatrixItem) (a : Int),
      List.foldl (fun total_jobs item => total_jobs + calculate_item_jobs item) a l
        = a + (l.map calculate_item_jobs).sum := by
    intro l
    induction l with
    | nil => intro a; simp
    | cons it rest ih => intro a; rw [List.foldl_cons, ih]; simp [add_assoc]
  cases items with
  | nil => simp [calculate_matrix_combinations, matrix_truthy]
  | cons it rest =>
    have h1 : calculate_matrix_combinations (.mlist (it :: rest))
        = List.foldl (fun total_jobs item => total_jobs + calculate_item_jobs item) 0 (it :: rest) := by
      simp [calculate_matrix_combinations, matrix_truthy]
    rw [h1, key]
    simp

lemma map_mdict_calculate (dims : List (List (String × MatrixValue))) :
    (dims.map MatrixItem.mdict).map calculate_item_jobs
      = dims.map (fun dim => (dim.map spec_entry_factor).prod) := by
  induction dims with
  | nil => rfl
  | cons d rest ih => simp [calculate_item_jobs_mdict, ih]

lemma calculate_matrix_jobs_dims (dims : List (List (String × MatrixValue))) :
    calculate_matrix_jobs (.pdictMatrix (.mlist (dims.map .mdict))) = spec_matrix_total dims := by
  have h1 : calculate_matrix_jobs (.pdictMatrix (.mlist (dims.map .mdict)))
      = calculate_matrix_combinations (.mlist (dims.map .mdict)) := rfl
  rw [h1, calculate_matrix_combinations_mlist, map_mdict_calculate]
  cases dims with
  | nil => simp [spec_matrix_total]
  | cons d rest => simp [spec_matrix_total]

/-- C2: the matrix job-count calculator returns a bare integer
unchanged; on a matrix given as a list of dimension-maps it returns
the specified sum of per-map products of list-entry lengths (scalar
entries contributing a factor of one), hence 0 for an empty matrix;
any other (non-matrix, non-integer) input yields 1; dimension products
are independent of key order; and the two worked examples yield 6
and 30. -/
theorem claim_C2_matrix_calculator :
    (∀ n : Int, calculate_matrix_jobs (.pint n) = n) ∧
    (∀ dims : List (List (String × MatrixValue)),
        calculate_matrix_jobs (.pdictMatrix (.mlist (dims.map .mdict)))
          = spec_matrix_total dims) ∧
    calculate_matrix_jobs (.pdictMatrix (.mlist [])) = 0 ∧
    (∀ b, calculate_matrix_jobs (.pdictOther b) = 1) ∧
    (∀ t, calculate_matrix_jobs (.pother t) = 1) ∧
    calculate_matrix_jobs (.pmodel none) = 1 ∧
    (∀ d₁ d₂ : List (String × MatrixValue), d₁.Perm d₂ →
        calculate_item_jobs (.mdict d₁) = calculate_item_jobs (.mdict d₂)) ∧
    calculate_matrix_jobs (.pdictMatrix (.mlist [.mdict
        [("A", .vlist [.yint 1, .yint 2, .yint 3]),
         ("B", .vlist [.yint 1, .yint 2])]])) = 6 ∧
    calculate_matrix_jobs (.pdictMatrix (.mlist [.mdict
        [("A", .vlist [.yint 1, .yint 2, .yint 3, .yint 4, .yint 5]),
         ("B", .vlist [.yint 1, .yint 2, .yint 3]),
         ("C", .vlist [.yint 1, .yint 2])]])) = 30 := by
  refine ⟨fun n => rfl, calculate_matrix_jobs_dims, by decide, fun b => rfl, fun t => rfl, rfl,
    fun d₁ d₂ h => ?_, by decide, by decide⟩
  rw [calculate_item_jobs_mdict, calculate_item_jobs_mdict]
  exact (h.map spec_entry_factor).prod_eq

/-- Witness for C2 at concrete inputs: the order-independence conjunct
applied to the example dimension-map and its key-swapped form, and the
bare-integer conjunct at 7. -/
theorem claim_C2_matrix_calculator_witness :
    calculate_item_jobs (.mdict
        [("A", .vlist [.yint 1, .yint 2, .yint 3]), ("B", .vlist [.yint 1, .yint 2])])
      = calculate_item_jobs (.mdict
        [("B", .vlist [.yint 1, .yint 2]), ("A", .vlist [.yint 1, .yint 2, .yint 3])]) ∧
    calculate_matrix_jobs (.pint 7) = 7 :=
  ⟨claim_C2_matrix_calculator.2.2.2.2.2.2.1 _ _ (List.Perm.swap _ _ _),
   claim_C2_matrix_calculator.1 7⟩

/-! ## Claim C3 -/

/-- A parallel value whose computed job count exceeds 200 is never
falsy: the falsy values (`0`, an empty dict, a falsy non-matrix value)
all compute to at most 1. -/
lemma parallel_truthy_of_gt_200 {p : ParallelConfig} (h : calculate_matrix_jobs p > 200) :
    parallel_truthy p = true := by
  cases p with
  | pint n =>
    have hn : n ≠ 0 := by
      intro h0
      rw [show calculate_matrix_jobs (.pint n) = n from rfl, h0] at h
      omega
    simp [parallel_truthy, hn]
  | pdictMatrix m => rfl
  | pdictOther b =>
    exact absurd h (by rw [show calculate_matrix_jobs (.pdictOther b) = 1 from rfl]; omega)
  | pmodel m => rfl
  | pother t =>
    exact absurd h (by rw [show calculate_matrix_jobs (.pother t) = 1 from rfl]; omega)

/-- Membership description of the GL033 violation list: a violation is
emitted for a job exactly when its parallel setting computes to more
than 200 jobs. -/
lemma mem_parallel_matrix_limit_check {level : LintLevel} {ci : GitLabCI} {v : LintViolation} :
    v ∈ parallel_matrix_limit_check level ci ↔
      ∃ jn ∈ ci.jobs, ∃ p, jn.2.parallel = some p ∧ calculate_matrix_jobs p > 200 ∧
        v = matrix_limit_violation level jn.1 (calculate_matrix_jobs p) := by
  simp only [parallel_matrix_limit_check, List.mem_filterMap]
  constructor
  · rintro ⟨jn, hjn, hsome⟩
    cases hp : jn.2.parallel with
    | none => rw [hp] at hsome; simp at hsome
    | some p =>
      rw [hp] at hsome
      have hsome2 : (if parallel_truthy p = true then
          (if calculate_matrix_jobs p > 200 then
            some (matrix_limit_violation level jn.1 (calculate_matrix_jobs p))
          else none)
        else none) = some v := hsome
      by_cases ht : parallel_truthy p
      · rw [if_pos ht] at hsome2
        by_cases hgt : calculate_matrix_jobs p > 200
        · rw [if_pos hgt] at hsome2
          exact ⟨jn, hjn, p, hp, hgt, (Option.some.inj hsome2).symm⟩
        · rw [if_neg hgt] at hsome2; simp at hsome2
      · rw [if_neg ht] at hsome2; simp at hsome2
  · rintro ⟨jn, hjn, p, hp, hgt, rfl⟩
    refine ⟨jn, hjn, ?_⟩
    rw [hp]
    show (if parallel_truthy p = true then
        (if calculate_matrix_jobs p > 200 then
          some (matrix_limit_violation level jn.1 (calculate_matrix_jobs p))
        else none)
      else none) = some (matrix_limit_violation level jn.1 (calculate_matrix_jobs p))
    rw [if_pos (parallel_truthy_of_gt_200 hgt), if_pos hgt]

/-- C3: the GL033 rule emits a violation for a job iff its computed
total job count exceeds 200; a bare `parallel: 200` yields no
violation, a bare `parallel: 201` yields exactly one violation whose
message contains both 201 and 200. -/
theorem claim_C3_matrix_limit_rule :
    (∀ (level : LintLevel) (ci : GitLabCI) (v : LintViolation),
      v ∈ parallel_matrix_limit_check level ci ↔
        ∃ jn ∈ ci.jobs, ∃ p, jn.2.parallel = some p ∧ calculate_matrix_jobs p > 200 ∧
          v = matrix_limit_violation level jn.1 (calculate_matrix_jobs p)) ∧
    parallel_matrix_limit_check .error
      { jobs := [("job200", { parallel := some (.pint 200) })] } = [] ∧
    (∃ v, parallel_matrix_limit_check .error
        { jobs := [("job201", { parallel := some (.pint 201) })] } = [v]
      ∧ message_mentions v "201" ∧ message_mentions v "200") := by
  refine ⟨fun level ci v => mem_parallel_matrix_limit_check, by decide,
    ⟨matrix_limit_violation .error "job201" 201, by decide, ?_, ?_⟩⟩
  · decide
  · decide

/-! ## Claim C4 -/

lemma rule_contribution_of_raise {ci : GitLabCI} {r : MRule} {vs : List LintViolation}
    {e : String} (happ : r.applicable ci = true) (hraise : r.check r.level ci = (vs, some e)) :
    rule_contribution ci r = vs ++ [rule_failure_violation r.rule_id e] := by
  rw [rule_contribution, if_pos happ, hraise]

lemma run_rules_append (ci : GitLabCI) (l₁ l₂ : List MRule) :
    run_rules ci (l₁ ++ l₂) = run_rules ci l₁ ++ run_rules ci l₂ := by
  rw [run_rules, List.filter_append, List.flatMap_append]; rfl

lemma run_rules_cons_enabled (ci : GitLabCI) (r : MRule) (l : List MRule)
    (h : r.enabled = true) :
    run_rules ci (r :: l) = rule_contribution ci r ++ run_rules ci l := by
  rw [run_rules, List.filter_cons, if_pos h, List.flatMap_cons]; rfl

lemma run_rules_cons_disabled (ci : GitLabCI) (r : MRule) (l : List MRule)
    (h : r.enabled = false) :
    run_rules ci (r :: l) = run_rules ci l := by
  rw [run_rules, List.filter_cons, h]; rfl

/-- C4: rule execution is fault-isolated — when an enabled applicable
rule raises, `lint_file` still returns, the file keeps the violations
of every other enabled rule in order, and exactly one synthetic
ERROR-level violation carrying the failing rule id and the failure
message is appended in the raising rule position. -/
theorem claim_C4_fault_isolation (file_path : String) (ci : GitLabCI)
    (l₁ l₂ : List MRule) (r : MRule) (vs : List LintViolation) (e : String)
    (henabled : r.enabled = true) (happ : r.applicable ci = true)
    (hraise : r.check r.level ci = (vs, some e)) :
    (lint_file file_path (.ok ci) (l₁ ++ r :: l₂)).violations
      = run_rules ci l₁ ++ (vs ++ [rule_failure_violation r.rule_id e]) ++ run_rules ci l₂
    ∧ (rule_failure_violation r.rule_id e).rule_id = r.rule_id
    ∧ (rule_failure_violation r.rule_id e).level = .error
    ∧ (rule_failure_violation r.rule_id e).message = "Rule execution failed: " ++ e
    ∧ (lint_file file_path (.ok ci) (l₁ ++ r :: l₂)).parse_error = none := by
  refine ⟨?_, rfl, rfl, rfl, rfl⟩
  show run_rules ci (l₁ ++ r :: l₂) = _
  rw [run_rules_append, run_rules_cons_enabled ci r l₂ henabled,
    rule_contribution_of_raise happ hraise]
  simp only [List.append_assoc]

/-- A well-behaved rule used in the engine witnesses: appends one
violation and never raises. -/
def ok_rule (id : String) : MRule :=
  { rule_id := id, category := "quality",
    check := fun level _ => ([{ rule_id := id, level := level, message := "found" }], none) }

/-- A rule whose `check` always raises. -/
def raising_rule : MRule :=
  { rule_id := "GLBAD", category := "quality",
    check := fun _ _ => ([], some "boom") }

/-- Witness for C4: with a raising rule between two healthy rules, both
healthy rules still contribute and the synthetic violation appears in
between. -/
theorem claim_C4_fault_isolation_witness :
    (lint_file "f" (.ok { jobs := [] }) ([ok_rule "GLA"] ++ raising_rule :: [ok_rule "GLB"])).violations
      = run_rules { jobs := [] } [ok_rule "GLA"]
        ++ ([] ++ [rule_failure_violation "GLBAD" "boom"])
        ++ run_rules { jobs := [] } [ok_rule "GLB"]
    ∧ run_rules { jobs := [] } [ok_rule "GLA"]
        = [{ rule_id := "GLA", level := .error, message := "found" }] := by
  refine ⟨(claim_C4_fault_isolation "f" { jobs := [] } [ok_rule "GLA"] [ok_rule "GLB"]
    raising_rule [] "boom" rfl rfl rfl).1, rfl⟩

/-! ## Claim C7 -/

/-- C7: when the parse step fails, `lint_file` returns a result carrying
only the parse error and an empty violation list, and the registered
rules are never consulted (the result does not depend on them). -/
theorem claim_C7_parse_error_short_circuits (file_path e : String) (rules : List MRule) :
    lint_file file_path (.error e) rules
      = { file_path := file_path, violations := [], parse_error := some e }
    ∧ lint_file file_path (.error e) rules = lint_file file_path (.error e) [] :=
  ⟨rfl, rfl⟩

/-! ## Claim C8 -/

/-- A rule contributing one fixed violation, for the truncation
counterexample. -/
def one_violation_rule : MRule :=
  { rule_id := "GLV", category := "quality",
    check := fun level _ => ([{ rule_id := "GLV", level := level, message := "v" }], none) }

/-- Counterexample to C8 as stated: with `max_violations = 0` (a
configured value) and a file producing one violation, the claim demands
truncation to zero entries, but zero is falsy in Python so the code
skips the constraint and returns the violation untouched. -/
theorem claim_C8_counterexample :
    (LinterConfig.max_violations { max_violations := some 0 } = some 0)
    ∧ (lint_files [("f", .ok { jobs := [] })] [one_violation_rule]
        { max_violations := some 0 }).map (fun r => r.violations.length) = [1] :=
  ⟨rfl, rfl⟩

/-- C8 amended: for every configured positive `max_violations` value N,
`lint_files` truncates each file whose violation count exceeds N to its
first N violations in original execution order, and leaves other files
unchanged. -/
lemma constrain_result (config : LinterConfig) (n : Int)
    (hn : config.max_violations = some n) (hpos : 0 < n) (res : LintResult) :
    (match config.max_violations with
      | some m =>
        if m ≠ 0 ∧ (res.violations.length : Int) > m then
          { res with violations := pySliceTake res.violations m }
        else res
      | none => res)
      = if (res.violations.length : Int) > n then
          { res with violations := res.violations.take n.toNat }
        else res := by
  rw [hn]
  show (if n ≠ 0 ∧ (res.violations.length : Int) > n then
      { res with violations := pySliceTake res.violations n }
    else res) = _
  by_cases hgt : (res.violations.length : Int) > n
  · rw [if_pos (And.intro (show n ≠ 0 by omega) hgt), if_pos hgt, pySliceTake,
      if_pos (le_of_lt hpos)]
  · rw [if_neg (show ¬(n ≠ 0 ∧ (res.violations.length : Int) > n) from fun hand => hgt hand.2),
      if_neg hgt]

theorem claim_C8_truncation (files : List (String × Except String GitLabCI))
    (rules : List MRule) (config : LinterConfig) (n : Int)
    (hn : config.max_violations = some n) (hpos : 0 < n) :
    lint_files files rules config
      = files.map (fun f =>
          let res := lint_file f.1 f.2 rules
          if (res.violations.length : Int) > n then
            { res with violations := res.violations.take n.toNat }
          else res) := by
  rw [lint_files, apply_config_constraints, List.map_map]
  refine List.map_congr_left (fun f _ => ?_)
  exact constrain_result config n hn hpos (lint_file f.1 f.2 rules)

/-- Witness for C8 amended: a file with two violations and
`max_violations = 1` keeps exactly the first violation. -/
def two_violation_rule : MRule :=
  { rule_id := "GL2", category := "quality",
    check := fun level _ =>
      ([{ rule_id := "GL2", level := level, message := "first" },
        { rule_id := "GL2", level := level, message := "second" }], none) }

theorem claim_C8_truncation_witness :
    lint_files [("f", .ok { jobs := [] })] [two_violation_rule] { max_violations := some 1 }
      = [{ file_path := "f",
           violations := [{ rule_id := "GL2", level := .error, message := "first" }] }] := by
  rw [claim_C8_truncation [("f", .ok { jobs := [] })] [two_violation_rule]
    { max_violations := some 1 } 1 rfl (by omega)]
  rfl

/-! ## Claim C6 -/

/-- Counterexample to C6 as stated: the empty-string category name is
falsy in Python, so mapping it to `False` in the categories table does
not disable a rule of that category that is individually enabled. -/
theorem claim_C6_counterexample :
    (LinterConfig.categories
        { rules := [("GLX", { enabled := true })], categories := [("", false)] }).lookup ""
      = some false
    ∧ (get_rule_config
        (some { rules := [("GLX", { enabled := true })], categories := [("", false)] })
        "GLX").enabled = true
    ∧ is_rule_enabled
        (some { rules := [("GLX", { enabled := true })], categories := [("", false)] })
        "GLX" (some "") = true :=
  ⟨rfl, rfl, by decide⟩

/-- C6 amended: for every configuration and rule with a non-empty
category name, the resolved enabled state is the AND of the category
setting (absent means enabled) and the rule-specific enabled flag; with
no category the rule flag decides alone; registration copies this
resolution into the rule, and a disabled rule contributes nothing when
the engine runs a file. -/
theorem claim_C6_category_gating (cfg : LinterConfig) (rule_id : String) (c : String)
    (hc : c ≠ "") :
    is_rule_enabled (some cfg) rule_id (some c)
      = (((cfg.categories.lookup c).getD true) && (get_rule_config (some cfg) rule_id).enabled)
    ∧ is_rule_enabled (some cfg) rule_id none = (get_rule_config (some cfg) rule_id).enabled
    ∧ (∀ r : MRule, (apply_rule_config (some cfg) r).enabled
        = is_rule_enabled (some cfg) r.rule_id (some r.category))
    ∧ (∀ (ci : GitLabCI) (l₁ l₂ : List MRule) (r : MRule), r.enabled = false →
        run_rules ci (l₁ ++ r :: l₂) = run_rules ci (l₁ ++ l₂)) := by
  refine ⟨?_, rfl, fun r => rfl, fun ci l₁ l₂ r hr => ?_⟩
  · show (if c ≠ "" ∧ cfg.categories.lookup c = some false then false
        else (get_rule_config (some cfg) rule_id).enabled) = _
    cases hcat : cfg.categories.lookup c with
    | none =>
      rw [if_neg (show ¬(c ≠ "" ∧ (none : Option Bool) = some false) from
        fun hand => Option.noConfusion hand.2)]
      simp
    | some b =>
      cases b with
      | false => rw [if_pos (And.intro hc rfl)]; simp
      | true =>
        rw [if_neg (show ¬(c ≠ "" ∧ some true = some false) from
          fun hand => Bool.noConfusion (Option.some.inj hand.2))]
        simp
  · rw [run_rules_append, run_rules_append, run_rules_cons_disabled ci r l₂ hr]

/-- Witness for C6 amended at a concrete configuration: the category
`security` is disabled, so rule GLY resolves disabled despite its own
enabled flag. -/
theorem claim_C6_category_gating_witness :
    (is_rule_enabled
        (some { rules := [("GLY", { enabled := true })], categories := [("security", false)] })
        "GLY" (some "security")
      = (((LinterConfig.categories
            { rules := [("GLY", { enabled := true })], categories := [("security", false)] }).lookup
              "security").getD true
          && (get_rule_config
            (some { rules := [("GLY", { enabled := true })], categories := [("security", false)] })
            "GLY").enabled))
    ∧ is_rule_enabled
        (some { rules := [("GLY", { enabled := true })], categories := [("security", false)] })
        "GLY" (some "security") = false :=
  ⟨(claim_C6_category_gating
      { rules := [("GLY", { enabled := true })], categories := [("security", false)] }
      "GLY" "security" (by decide)).1,
   by decide⟩

/-! ## Claim C5 -/

lemma mem_setAdd {s : List String} {x y : String} :
    y ∈ setAdd s x ↔ y ∈ s ∨ y = x := by
  rw [setAdd]
  by_cases h : x ∈ s
  · rw [if_pos h]
    constructor
    · exact Or.inl
    · rintro (hy | rfl)
      · exact hy
      · exact h
  · rw [if_neg h]
    simp

/-- Declarative form of the violations of the traditional-dependency
loop: one violation per unknown target, in declaration order. -/
def traditional_viols (level : LintLevel) (job_name : String) (job_names : List String)
    (l : List String) : List LintViolation :=
  l.filterMap (fun dep =>
    if dep ∉ job_names then some (dep_violation level job_name dep) else none)

lemma traditional_viols_cons_known (level : LintLevel) (job_name : String)
    (job_names : List String) (dep : String) (rest : List String) (h : dep ∈ job_names) :
    traditional_viols level job_name job_names (dep :: rest)
      = traditional_viols level job_name job_names rest := by
  simp only [traditional_viols, List.filterMap_cons,
    if_neg (show ¬dep ∉ job_names from fun hn => hn h)]

lemma traditional_viols_cons_unknown (level : LintLevel) (job_name : String)
    (job_names : List String) (dep : String) (rest : List String) (h : dep ∉ job_names) :
    traditional_viols level job_name job_names (dep :: rest)
      = dep_violation level job_name dep :: traditional_viols level job_name job_names rest := by
  simp only [traditional_viols, List.filterMap_cons, if_pos h]

lemma process_traditional_foldl (level : LintLevel) (job_name : String)
    (job_names : List String) :
    ∀ (l : List String) (acc : List String × List LintViolation),
      (List.foldl (fun acc dep =>
          if dep ∉ job_names then (acc.1, acc.2 ++ [dep_violation level job_name dep])
          else (setAdd acc.1 dep, acc.2)) acc l).2
        = acc.2 ++ traditional_viols level job_name job_names l
      ∧ (∀ x, x ∈ (List.foldl (fun acc dep =>
          if dep ∉ job_names then (acc.1, acc.2 ++ [dep_violation level job_name dep])
          else (setAdd acc.1 dep, acc.2)) acc l).1 ↔ x ∈ acc.1 ∨ (x ∈ l ∧ x ∈ job_names)) := by
  intro l
  induction l with
  | nil => intro acc; simp [traditional_viols]
  | cons dep rest ih =>
    intro acc
    rw [List.foldl_cons]
    by_cases hd : dep ∈ job_names
    · rw [if_neg (show ¬dep ∉ job_names from fun hn => hn hd)]
      obtain ⟨ih2, ih1⟩ := ih (setAdd acc.1 dep, acc.2)
      refine ⟨?_, fun x => ?_⟩
      · rw [ih2, traditional_viols_cons_known level job_name job_names dep rest hd]
      · rw [ih1 x]
        show x ∈ setAdd acc.1 dep ∨ _ ↔ _
        rw [mem_setAdd]
        constructor
        · rintro ((hx | rfl) | ⟨hr, hn⟩)
          · exact Or.inl hx
          · exact Or.inr ⟨List.mem_cons_self _ _, hd⟩
          · exact Or.inr ⟨List.mem_cons_of_mem _ hr, hn⟩
        · rintro (hx | ⟨hmem, hn⟩)
          · exact Or.inl (Or.inl hx)
          · rcases List.mem_cons.mp hmem with rfl | hr
            · exact Or.inl (Or.inr rfl)
            · exact Or.inr ⟨hr, hn⟩
    · rw [if_pos hd]
      obtain ⟨ih2, ih1⟩ := ih (acc.1, acc.2 ++ [dep_violation level job_name dep])
      refine ⟨?_, fun x => ?_⟩
      · rw [ih2, traditional_viols_cons_unknown level job_name job_names dep rest hd]
        show (acc.2 ++ [dep_violation level job_name dep]) ++ _ = _
        rw [List.append_assoc]
        rfl
      · rw [ih1 x]
        constructor
        · rintro (hx | ⟨hr, hn⟩)
          · exact Or.inl hx
          · exact Or.inr ⟨List.mem_cons_of_mem _ hr, hn⟩
        · rintro (hx | ⟨hmem, hn⟩)
          · exact Or.inl hx
          · rcases List.mem_cons.mp hmem with rfl | hr
            · exact absurd hn hd
            · exact Or.inr ⟨hr, hn⟩

/-- Declarative form of the violations of the needs loop: one violation
per need whose extracted job name is non-empty and unknown. -/
def needs_viols (level : LintLevel) (job_name : String) (job_names : List String)
    (l : List NeedSpec) : List LintViolation :=
  l.filterMap (fun need =>
    match extract_need_job_name need with
    | none => none
    | some nj =>
      if nj ≠ "" ∧ nj ∉ job_names then some (need_violation level job_name nj) else none)

lemma needs_viols_cons_none (level : LintLevel) (job_name : String)
    (job_names : List String) (need : NeedSpec) (rest : List NeedSpec)
    (he : extract_need_job_name need = none) :
    needs_viols level job_name job_names (need :: rest)
      = needs_viols level job_name job_names rest := by
  simp only [needs_viols, List.filterMap_cons, he]

lemma needs_viols_cons_bad (level : LintLevel) (job_name : String)
    (job_names : List String) (need : NeedSpec) (rest : List NeedSpec) (nj : String)
    (he : extract_need_job_name need = some nj) (h : nj ≠ "" ∧ nj ∉ job_names) :
    needs_viols level job_name job_names (need :: rest)
      = need_violation level job_name nj :: needs_viols level job_name job_names rest := by
  simp only [needs_viols, List.filterMap_cons, he, if_pos h]

lemma needs_viols_cons_ok (level : LintLevel) (job_name : String)
    (job_names : List String) (need : NeedSpec) (rest : List NeedSpec) (nj : String)
    (he : extract_need_job_name need = some nj) (h : ¬(nj ≠ "" ∧ nj ∉ job_names)) :
    needs_viols level job_name job_names (need :: rest)
      = needs_viols level job_name job_names rest := by
  simp only [needs_viols, List.filterMap_cons, he, if_neg h]

lemma process_needs_foldl (level : LintLevel) (job_name : String)
    (job_names : List String) :
    ∀ (l : List NeedSpec) (acc : List String × List LintViolation),
      (List.foldl (fun acc need =>
          match extract_need_job_name need with
          | none => acc
          | some need_job =>
            if need_job ≠ "" ∧ need_job ∉ job_names then
              (acc.1, acc.2 ++ [need_violation level job_name need_job])
            else if need_job ≠ "" then (setAdd acc.1 need_job, acc.2)
            else acc) acc l).2
        = acc.2 ++ needs_viols level job_name job_names l
      ∧ (∀ x, x ∈ (List.foldl (fun acc need =>
          match extract_need_job_name need with
          | none => acc
          | some need_job =>
            if need_job ≠ "" ∧ need_job ∉ job_names then
              (acc.1, acc.2 ++ [need_violation level job_name need_job])
            else if need_job ≠ "" then (setAdd acc.1 need_job, acc.2)
            else acc) acc l).1 ↔
          x ∈ acc.1 ∨ (∃ need ∈ l, extract_need_job_name need = some x ∧ x ≠ "" ∧ x ∈ job_names)) := by
  intro l
  induction l with
  | nil => intro acc; simp [needs_viols]
  | cons need rest ih =>
    intro acc
    rw [List.foldl_cons]
    cases he : extract_need_job_name need with
    | none =>
      simp only [he]
      obtain ⟨ih2, ih1⟩ := ih acc
      refine ⟨?_, fun x => ?_⟩
      · rw [ih2, needs_viols_cons_none level job_name job_names need rest he]
      · rw [ih1 x]
        constructor
        · rintro (hx | ⟨n, hn, hex⟩)
          · exact Or.inl hx
          · exact Or.inr ⟨n, List.mem_cons_of_mem _ hn, hex⟩
        · rintro (hx | ⟨n, hn, hex, hrest⟩)
          · exact Or.inl hx
          · rcases List.mem_cons.mp hn with rfl | hn
            · rw [he] at hex; cases hex
            · exact Or.inr ⟨n, hn, hex, hrest⟩
    | some nj =>
      simp only [he]
      by_cases hbad : nj ≠ "" ∧ nj ∉ job_names
      · rw [if_pos hbad]
        obtain ⟨ih2, ih1⟩ := ih (acc.1, acc.2 ++ [need_violation level job_name nj])
        refine ⟨?_, fun x => ?_⟩
        · rw [ih2, needs_viols_cons_bad level job_name job_names need rest nj he hbad]
          show (acc.2 ++ [need_violation level job_name nj]) ++ _ = _
          rw [List.append_assoc]
          rfl
        · rw [ih1 x]
          constructor
          · rintro (hx | ⟨n, hn, hex⟩)
            · exact Or.inl hx
            · exact Or.inr ⟨n, List.mem_cons_of_mem _ hn, hex⟩
          · rintro (hx | ⟨n, hn, hex, hne, hmem⟩)
            · exact Or.inl hx
            · rcases List.mem_cons.mp hn with rfl | hn
              · rw [he] at hex
                cases hex
                exact absurd hmem hbad.2
              · exact Or.inr ⟨n, hn, hex, hne, hmem⟩
      · rw [if_neg hbad]
        by_cases hne : nj ≠ ""
        · have hknown : nj ∈ job_names := by
            by_contra hnk
            exact hbad ⟨hne, hnk⟩
          rw [if_pos hne]
          obtain ⟨ih2, ih1⟩ := ih (setAdd acc.1 nj, acc.2)
          refine ⟨?_, fun x => ?_⟩
          · rw [ih2, needs_viols_cons_ok level job_name job_names need rest nj he hbad]
          · rw [ih1 x]
            show x ∈ setAdd acc.1 nj ∨ _ ↔ _
            rw [mem_setAdd]
            constructor
            · rintro ((hx | rfl) | ⟨n, hn, hex⟩)
              · exact Or.inl hx
              · exact Or.inr ⟨need, List.mem_cons_self _ _, he, hne, hknown⟩
              · exact Or.inr ⟨n, List.mem_cons_of_mem _ hn, hex⟩
            · rintro (hx | ⟨n, hn, hex, hne2, hmem⟩)
              · exact Or.inl (Or.inl hx)
              · rcases List.mem_cons.mp hn with rfl | hn
                · rw [he] at hex
                  cases hex
                  exact Or.inl (Or.inr rfl)
                · exact Or.inr ⟨n, hn, hex, hne2, hmem⟩
        · rw [if_neg hne]
          have hempty : nj = "" := by
            by_contra hx
            exact hne hx
          obtain ⟨ih2, ih1⟩ := ih acc
          refine ⟨?_, fun x => ?_⟩
          · rw [ih2, needs_viols_cons_ok level job_name job_names need rest nj he hbad]
          · rw [ih1 x]
            constructor
            · rintro (hx | ⟨n, hn, hex⟩)
              · exact Or.inl hx
              · exact Or.inr ⟨n, List.mem_cons_of_mem _ hn, hex⟩
            · rintro (hx | ⟨n, hn, hex, hne2, hmem⟩)
              · exact Or.inl hx
              · rcases List.mem_cons.mp hn with rfl | hn
                · rw [he] at hex
                  cases hex
                  exact absurd hempty hne2
                · exact Or.inr ⟨n, hn, hex, hne2, hmem⟩

/-- The concrete pipeline of the C5 counterexample: one job depending
on a job that does not exist. -/
def c5_ci : GitLabCI :=
  { jobs := [("a", { dependencies := some ["ghost"] })] }

/-- Counterexample to C5 as stated: running the GL003 rule registered
under the default configuration on a dangling dependency emits the
non-existent-job violation at WARNING level (the configured level of
GL003), not at ERROR level as the claim demands. -/
theorem claim_C5_counterexample :
    rule_contribution c5_ci (apply_rule_config (some default_loaded_config) job_dependencies_rule)
      = [dep_violation .warning "a" "ghost", unreachable_violation "a"]
    ∧ message_mentions (dep_violation .warning "a" "ghost") "non-existent job"
    ∧ (dep_violation .warning "a" "ghost").level ≠ .error := by
  refine ⟨by decide, by decide, by decide⟩

/-- C5 amended: during dependency-graph construction, every declared
dependency target — and every need target extracted as a non-empty
string — that is not a known job name produces a violation reporting it
at the rule-configured level (WARNING for GL003 under the default
configuration) and contributes no edge; every known such target
contributes its edge and no violation; need targets extracted as `None`
or as the empty string are skipped entirely. -/
theorem claim_C5_reference_checks (level : LintLevel) (job_name : String) (job : Job)
    (job_names : List String) :
    ((process_traditional_dependencies level job_name job job_names).2
        = traditional_viols level job_name job_names (job.dependencies.getD []))
    ∧ (∀ x, x ∈ (process_traditional_dependencies level job_name job job_names).1 ↔
        x ∈ job.dependencies.getD [] ∧ x ∈ job_names)
    ∧ ((process_needs_dependencies level job_name job job_names).2
        = needs_viols level job_name job_names (job.needs.getD []))
    ∧ (∀ x, x ∈ (process_needs_dependencies level job_name job job_names).1 ↔
        ∃ need ∈ job.needs.getD [], extract_need_job_name need = some x ∧ x ≠ "" ∧ x ∈ job_names)
    ∧ (∀ v ∈ traditional_viols level job_name job_names (job.dependencies.getD []),
        v.level = level)
    ∧ (apply_rule_config (some default_loaded_config) job_dependencies_rule).level = .warning := by
  obtain ⟨ht2, ht1⟩ := process_traditional_foldl level job_name job_names
    (job.dependencies.getD []) ([], [])
  obtain ⟨hn2, hn1⟩ := process_needs_foldl level job_name job_names
    (job.needs.getD []) ([], [])
  refine ⟨ht2.trans (List.nil_append _), fun x => ?_,
    hn2.trans (List.nil_append _), fun x => ?_, fun v hv => ?_, by decide⟩
  · constructor
    · intro hx
      rcases (ht1 x).mp hx with hfalse | hok
      · exact absurd hfalse (List.not_mem_nil x)
      · exact hok
    · intro hok
      exact (ht1 x).mpr (Or.inr hok)
  · constructor
    · intro hx
      rcases (hn1 x).mp hx with hfalse | hok
      · exact absurd hfalse (List.not_mem_nil x)
      · exact hok
    · intro hok
      exact (hn1 x).mpr (Or.inr hok)
  rw [traditional_viols] at hv
  obtain ⟨dep, _, hsome⟩ := List.mem_filterMap.mp hv
  by_cases hd : dep ∉ job_names
  · rw [if_pos hd] at hsome
    rw [← Option.some.inj hsome]
    rfl
  · rw [if_neg hd] at hsome
    cases hsome

/-- Witness for C5 amended at a concrete job: the dangling dependency
ghost yields its violation list and the violation carries the rule
level. -/
theorem claim_C5_reference_checks_witness :
    (process_traditional_dependencies .warning "a" { dependencies := some ["ghost"] } ["a"]).2
      = traditional_viols .warning "a" ["a"] ["ghost"]
    ∧ (dep_violation .warning "a" "ghost").level = .warning := by
  have h := claim_C5_reference_checks .warning "a" { dependencies := some ["ghost"] } ["a"]
  exact ⟨h.1, h.2.2.2.2.1 (dep_violation .warning "a" "ghost") (by decide)⟩

/-! ## Claim C9 -/

lemma eq_of_mem_of_nodup_keys {α β : Type} {l : List (α × β)}
    (h : (l.map Prod.fst).Nodup) {a b : α × β}
    (ha : a ∈ l) (hb : b ∈ l) (hab : a.1 = b.1) : a = b := by
  induction l with
  | nil => exact absurd ha (List.not_mem_nil a)
  | cons x rest ih =>
    rw [List.map_cons, List.nodup_cons] at h
    rcases List.mem_cons.mp ha with rfl | ha2
    · rcases List.mem_cons.mp hb with rfl | hb2
      · rfl
      · have hx : a.1 ∈ rest.map Prod.fst := by
          rw [hab]
          exact List.mem_map_of_mem Prod.fst hb2
        exact absurd hx h.1
    · rcases List.mem_cons.mp hb with rfl | hb2
      · have hx : b.1 ∈ rest.map Prod.fst := by
          rw [← hab]
          exact List.mem_map_of_mem Prod.fst ha2
        exact absurd hx h.1
      · exact ih h.2 ha2 hb2

/-- Membership description of the unreachable-job violations. -/
lemma mem_check_unreachable_jobs {ci : GitLabCI} {deps needs : DepGraph} {v : LintViolation} :
    v ∈ check_unreachable_jobs ci deps needs ↔
      ∃ jn ∈ ci.jobs,
        (jn.1 ∉ first_stage_jobs ci ∧ jn.1 ∉ referenced_jobs deps needs
          ∧ jn.2.when ≠ some "manual" ∧ jn.2.when ≠ some "delayed"
          ∧ ¬((jn.2.rules.getD []) ≠ []
              ∧ (jn.2.rules.getD []).any (fun r => r.when = some "manual")))
        ∧ v = unreachable_violation jn.1 := by
  simp only [check_unreachable_jobs, List.mem_filterMap, Option.ite_none_right_eq_some,
    Option.some.injEq]
  constructor
  · rintro ⟨jn, hjn, hcond, rfl⟩
    exact ⟨jn, hjn, hcond, rfl⟩
  · rintro ⟨jn, hjn, hcond, rfl⟩
    exact ⟨jn, hjn, hcond, rfl⟩

/-- The pipeline of the C9 counterexample: job b sits in the last of
three stages, is referenced by nothing, and has no manual or delayed
`when`, but carries a `rules` entry with `when: manual`. -/
def c9_ci : GitLabCI :=
  { jobs := [("a", { stage := some "s1" }),
             ("b", { stage := some "s3", rules := some [{ when := some "manual" }] })],
    stages := some ["s1", "s2", "s3"],
    all_stages := ["s1", "s2", "s3"] }

/-- Counterexample to C9 as stated: job b satisfies every condition the
claim lists (outside the first stage, unreferenced, `when` neither
manual nor delayed), yet no violation at all is emitted, because the
code additionally exempts jobs with a `rules` entry whose `when` is
manual. -/
theorem claim_C9_counterexample :
    (∃ jb, ("b", jb) ∈ c9_ci.jobs
      ∧ "b" ∉ first_stage_jobs c9_ci
      ∧ "b" ∉ referenced_jobs
          (build_dependency_graph .warning c9_ci.jobs (c9_ci.jobs.map Prod.fst)).1
          (build_dependency_graph .warning c9_ci.jobs (c9_ci.jobs.map Prod.fst)).2.1
      ∧ jb.when ≠ some "manual" ∧ jb.when ≠ some "delayed")
    ∧ check_unreachable_jobs c9_ci
        (build_dependency_graph .warning c9_ci.jobs (c9_ci.jobs.map Prod.fst)).1
        (build_dependency_graph .warning c9_ci.jobs (c9_ci.jobs.map Prod.fst)).2.1 = [] := by
  refine ⟨⟨{ stage := some "s3", rules := some [{ when := some "manual" }] },
    by decide, by decide, by decide, by decide, by decide⟩, by decide⟩

/-- C9 amended: a job outside the first stage (and `.pre`), referenced
by no job, whose `when` is neither manual nor delayed, and none of
whose `rules` entries sets `when: manual`, receives a WARNING-level
unreachable-job violation; a job whose `when` is manual is never
flagged (under distinct job names). -/
theorem claim_C9_unreachable_jobs (ci : GitLabCI) (deps needs : DepGraph)
    (jn : String × Job) (hmem : jn ∈ ci.jobs)
    (h1 : jn.1 ∉ first_stage_jobs ci)
    (h2 : jn.1 ∉ referenced_jobs deps needs)
    (h3 : jn.2.when ≠ some "manual")
    (h4 : jn.2.when ≠ some "delayed")
    (h5 : ¬((jn.2.rules.getD []) ≠ []
        ∧ (jn.2.rules.getD []).any (fun r => r.when = some "manual"))) :
    (unreachable_violation jn.1 ∈ check_unreachable_jobs ci deps needs
      ∧ (unreachable_violation jn.1).level = .warning)
    ∧ ∀ (jm : String × Job), jm ∈ ci.jobs → (ci.jobs.map Prod.fst).Nodup →
        jm.2.when = some "manual" →
        ∀ v ∈ check_unreachable_jobs ci deps needs, v.job_name ≠ some jm.1 := by
  refine ⟨⟨mem_check_unreachable_jobs.mpr ⟨jn, hmem, ⟨h1, h2, h3, h4, h5⟩, rfl⟩, rfl⟩,
    fun jm hjm hnodup hmanual v hv => ?_⟩
  obtain ⟨jn2, hjn2, hcond, rfl⟩ := mem_check_unreachable_jobs.mp hv
  intro heq
  have hname : jn2.1 = jm.1 := Option.some.inj heq
  have heqpair : jn2 = jm := eq_of_mem_of_nodup_keys hnodup hjn2 hjm hname
  rw [heqpair] at hcond
  exact hcond.2.2.1 hmanual

/-- The pipeline of the C9 witness: a three-stage pipeline whose
last-stage job nothing references. -/
def c9w_ci : GitLabCI :=
  { jobs := [("build1", { stage := some "s1" }), ("deploy", { stage := some "s3" })],
    stages := some ["s1", "s2", "s3"],
    all_stages := ["s1", "s2", "s3"] }

/-- Witness for C9 amended: the unreferenced last-stage job deploy is
flagged at WARNING level. -/
theorem claim_C9_unreachable_jobs_witness :
    unreachable_violation "deploy" ∈ check_unreachable_jobs c9w_ci
        (build_dependency_graph .warning c9w_ci.jobs (c9w_ci.jobs.map Prod.fst)).1
        (build_dependency_graph .warning c9w_ci.jobs (c9w_ci.jobs.map Prod.fst)).2.1
      ∧ (unreachable_violation "deploy").level = .warning :=
  (claim_C9_unreachable_jobs c9w_ci _ _ ("deploy", { stage := some "s3" })
    (by decide) (by decide) (by decide) (by decide) (by decide) (by decide)).1

end GitlabLint
